import Mathlib

/-!
Verification of the Haraka-512 keyed permutation crate.

The file embeds `src/src/haraka512_keyed.rs` and `src/src/lib.rs` as Lean
functions over byte lists (a byte is a `Nat`; machine wrap-around is written
explicitly with `% 256` where the operations need it).  The crate modules
`simd128`, `haraka512` and `constants` are declared in `lib.rs` but their
sources are not part of the given tree; the corresponding definitions below
are modelled from the specification (sections 4.1 to 4.5) and each such
definition says so in its doc comment.
-/

namespace Haraka

/-- Modelled from the spec: GF(2^8) doubling (xtime) over the AES field,
reduction polynomial x^8 + x^4 + x^3 + x + 1, used by the AES round of the
lane primitive (spec 4.1). -/
def xtime (b : Nat) : Nat := ((2 * b) % 256) ^^^ (if 128 ≤ b then 27 else 0)

/-- Modelled from the spec: one step of GF(2^8) carry-less multiplication. -/
def gmulAux : Nat → Nat → Nat → Nat → Nat
  | 0, _, _, acc => acc
  | n + 1, a, b, acc =>
      gmulAux n (xtime a) (b / 2) (if b % 2 = 1 then acc ^^^ a else acc)

/-- Modelled from the spec: GF(2^8) multiplication in the AES field. -/
def gmul (a b : Nat) : Nat := gmulAux 8 a b 0

/-- Modelled from the spec: GF(2^8) inverse, computed as a^254 (with the AES
convention that 0 maps to 0). -/
def ginv (a : Nat) : Nat :=
  let a2 := gmul a a
  let a4 := gmul a2 a2
  let a8 := gmul a4 a4
  let a16 := gmul a8 a8
  let a32 := gmul a16 a16
  let a64 := gmul a32 a32
  let a128 := gmul a64 a64
  gmul a128 (gmul a64 (gmul a32 (gmul a16 (gmul a8 (gmul a4 a2)))))

/-- Modelled from the spec: rotate an 8-bit value left by k bits. -/
def rotl8 (b k : Nat) : Nat :=
  (((b % 256) * 2 ^ k) % 256) ^^^ ((b % 256) / 2 ^ (8 - k))

/-- Modelled from the spec: the AES S-box, inverse in GF(2^8) followed by the
AES affine transformation (spec 4.1, byte substitution of the AES round). -/
def sbox (x : Nat) : Nat :=
  let i := ginv (x % 256)
  i ^^^ rotl8 i 1 ^^^ rotl8 i 2 ^^^ rotl8 i 3 ^^^ rotl8 i 4 ^^^ 99

/-- Byte i of a lane (a lane is 16 consecutive bytes, spec section 3). -/
def byteAt (l : List Nat) (i : Nat) : Nat := l.getD i 0

/-- Modelled from the spec: AES SubBytes on a 16-byte lane. -/
def subBytes (l : List Nat) : List Nat := l.map sbox

/-- Modelled from the spec: AES ShiftRows on a 16-byte lane in the standard
column-major AES state layout (byte 4c+r holds row r of column c). -/
def shiftRows (l : List Nat) : List Nat :=
  [byteAt l 0, byteAt l 5, byteAt l 10, byteAt l 15,
   byteAt l 4, byteAt l 9, byteAt l 14, byteAt l 3,
   byteAt l 8, byteAt l 13, byteAt l 2, byteAt l 7,
   byteAt l 12, byteAt l 1, byteAt l 6, byteAt l 11]

/-- Modelled from the spec: AES MixColumns on one column. -/
def mixColumn (a0 a1 a2 a3 : Nat) : List Nat :=
  [xtime a0 ^^^ (xtime a1 ^^^ a1) ^^^ a2 ^^^ a3,
   a0 ^^^ xtime a1 ^^^ (xtime a2 ^^^ a2) ^^^ a3,
   a0 ^^^ a1 ^^^ xtime a2 ^^^ (xtime a3 ^^^ a3),
   (xtime a0 ^^^ a0) ^^^ a1 ^^^ a2 ^^^ xtime a3]

/-- Modelled from the spec: AES MixColumns on a 16-byte lane. -/
def mixColumns (l : List Nat) : List Nat :=
  mixColumn (byteAt l 0) (byteAt l 1) (byteAt l 2) (byteAt l 3) ++
  mixColumn (byteAt l 4) (byteAt l 5) (byteAt l 6) (byteAt l 7) ++
  mixColumn (byteAt l 8) (byteAt l 9) (byteAt l 10) (byteAt l 11) ++
  mixColumn (byteAt l 12) (byteAt l 13) (byteAt l 14) (byteAt l 15)

/-- Modelled from the spec: the lane XOR of the lane primitive
(Simd128::pxor, spec 4.1); the Rust call pxor(&mut a, &b) stores the value
modelled here back into a. -/
def pxor (a b : List Nat) : List Nat := List.zipWith (fun x y => x ^^^ y) a b

/-- Modelled from the spec: one standard AES-128 encryption round on a lane:
SubBytes, ShiftRows, MixColumns, then XOR with the round key (spec 4.1). -/
def aes_round (s rk : List Nat) : List Nat :=
  pxor (mixColumns (shiftRows (subBytes s))) rk

/-- Modelled from the spec: Simd128::read of the 16 bytes of a buffer
starting at a given offset (spec 4.1, load). -/
def readLane (bytes : List Nat) (off : Nat) : List Nat :=
  (bytes.drop off).take 16

/-- Modelled from the spec: the process-wide, build-time-fixed table of 48
round constants of 16 bytes each (spec 4.2 and section 3).  The canonical
byte values are external material the spec does not reproduce (spec
section 9, open question); placeholder bytes stand in for them here.  Every
theorem below is independent of the entry values or quantifies over the
table: only the length (48) and the indexing contract are relied upon. -/
def HARAKA_CONSTANTS : List (List Nat) :=
  (List.range 48).map (fun i => (List.range 16).map (fun j => (37 * i + 17 * j + 11) % 256))

/-- Table lookup used by the round function; total, with an all-zero lane as
the out-of-range default (in-bounds accesses are what the theorems certify). -/
def tblGet (tbl : List (List Nat)) (i : Nat) : List Nat :=
  tbl.getD i (List.replicate 16 0)

/-- The four-lane working state (s0..s3), spec section 3. -/
structure St where
  s0 : List Nat
  s1 : List Nat
  s2 : List Nat
  s3 : List Nat
deriving DecidableEq

/-- 32-bit sub-word i of a lane (4 consecutive bytes). -/
def word32 (l : List Nat) (i : Nat) : List Nat := (l.drop (4 * i)).take 4

/-- Modelled from the spec: the canonical Haraka-512 mix, the fixed
cross-lane shuffle of 32-bit sub-words (spec 4.3 step 2), in the published
unpack-lo/hi order of the reference construction. -/
def mix4 (s0 s1 s2 s3 : List Nat) : St :=
  ⟨word32 s0 3 ++ word32 s2 3 ++ word32 s1 3 ++ word32 s3 3,
   word32 s2 0 ++ word32 s0 0 ++ word32 s3 0 ++ word32 s1 0,
   word32 s2 1 ++ word32 s0 1 ++ word32 s3 1 ++ word32 s1 1,
   word32 s0 2 ++ word32 s2 2 ++ word32 s1 2 ++ word32 s3 2⟩

/-- Modelled from the spec: the round function aes_mix4 (spec 4.3) over an
explicit constant table: two AES rounds per lane, lane i using constants
c + 2i and c + 2i + 1, then the mix shuffle.  The Rust function mutates the
four lanes in place; here they are grouped in an St value. -/
def aes_mix4With (tbl : List (List Nat)) (s : St) (c : Nat) : St :=
  let s0 := aes_round (aes_round s.s0 (tblGet tbl c)) (tblGet tbl (c + 1))
  let s1 := aes_round (aes_round s.s1 (tblGet tbl (c + 2))) (tblGet tbl (c + 3))
  let s2 := aes_round (aes_round s.s2 (tblGet tbl (c + 4))) (tblGet tbl (c + 5))
  let s3 := aes_round (aes_round s.s3 (tblGet tbl (c + 6))) (tblGet tbl (c + 7))
  mix4 s0 s1 s2 s3

/-- The round function against the fixed constant table, as called by
haraka512_keyed.rs line 52. -/
def aes_mix4 (s : St) (c : Nat) : St := aes_mix4With HARAKA_CONSTANTS s c

/-- The constant-table indices one aes_mix4 call reads: the 8 consecutive
indices starting at its start index c (spec 4.3 step 1). -/
def aes_mix4_indices (c : Nat) : List Nat :=
  [c, c + 1, c + 2, c + 3, c + 4, c + 5, c + 6, c + 7]

/-- The round loop of haraka512_keyed.rs lines 51-53: for i in 0..n,
aes_mix4 with start index 8*i. -/
def roundLoop (tbl : List (List Nat)) (n : Nat) (s : St) : St :=
  (List.range n).foldl (fun st i => aes_mix4With tbl st (8 * i)) s

/-- The round loop instrumented with the list of start indices it passes to
aes_mix4, in call order. -/
def roundLoopTrace (tbl : List (List Nat)) (n : Nat) (s : St) : St × List Nat :=
  (List.range n).foldl (fun p i => (aes_mix4With tbl p.1 (8 * i), p.2 ++ [8 * i])) (s, [])

/-- All constant-table indices the keyed permutation with n rounds reads,
in access order: the loop of lines 51-53 joined with the per-call reads. -/
def keyedConstIndices (n : Nat) : List Nat :=
  ((List.range n).map (fun i => aes_mix4_indices (8 * i))).flatten

/-- Overwrite of the bytes of dst at positions pos to pos + src.length by
src, the memory effect of an 8-byte store into the output buffer. -/
def writeBytes (dst : List Nat) (pos : Nat) (src : List Nat) : List Nat :=
  dst.take pos ++ src ++ dst.drop (pos + src.length)

/-- The high 8 bytes of a 16-byte lane (the high 64 bits in the
little-endian byte order of the crate documentation, lib.rs lines 22-23). -/
def hi64 (l : List Nat) : List Nat := (l.drop 8).take 8

/-- The low 8 bytes of a 16-byte lane. -/
def lo64 (l : List Nat) : List Nat := l.take 8

/-- Modelled from the spec: truncstore (spec 4.4), the published Haraka-512
truncation: dst gets the high 8 bytes of lanes 0 and 1 followed by the low
8 bytes of lanes 2 and 3, written into the 32-byte output buffer. -/
def truncstore (dst s0 s1 s2 s3 : List Nat) : List Nat :=
  writeBytes (writeBytes (writeBytes (writeBytes dst 0 (hi64 s0)) 8 (hi64 s1)) 16 (lo64 s2)) 24 (lo64 s3)

/-- The condition of the debug assertion at haraka512_keyed.rs lines 47-50:
the assertion passes exactly when this is true. -/
def keyedRoundsAssert (n : Nat) : Bool := decide (n ≤ 5)

/-- Translation of haraka512_keyed (src/src/haraka512_keyed.rs lines 14-64):
load state and key into four lanes each, XOR the key lanes into the state
lanes, save the post-key lanes as t0..t3, run the round loop, feed the
saved lanes forward by XOR, truncate and store into dst.  The round-count
const generic becomes the first argument; the &mut dst argument becomes the
dst parameter and the written buffer is returned. -/
def haraka512_keyed (nRounds : Nat) (dst state key : List Nat) : List Nat :=
  let s0 := readLane state 0
  let s1 := readLane state 16
  let s2 := readLane state 32
  let s3 := readLane state 48
  let k0 := readLane key 0
  let k1 := readLane key 16
  let k2 := readLane key 32
  let k3 := readLane key 48
  let s0 := pxor s0 k0
  let s1 := pxor s1 k1
  let s2 := pxor s2 k2
  let s3 := pxor s3 k3
  let t0 := s0
  let t1 := s1
  let t2 := s2
  let t3 := s3
  let r := roundLoop HARAKA_CONSTANTS nRounds ⟨s0, s1, s2, s3⟩
  let f0 := pxor r.s0 t0
  let f1 := pxor r.s1 t1
  let f2 := pxor r.s2 t2
  let f3 := pxor r.s3 t3
  truncstore dst f0 f1 f2 f3

/-- Modelled from the spec: the unkeyed permutation haraka512 (spec 4.5,
re-exported at lib.rs lines 13-15): load, save the raw input lanes as the
feed-forward copy, run the rounds, feed forward, truncate and store. -/
def haraka512 (nRounds : Nat) (dst src : List Nat) : List Nat :=
  let s0 := readLane src 0
  let s1 := readLane src 16
  let s2 := readLane src 32
  let s3 := readLane src 48
  let t0 := s0
  let t1 := s1
  let t2 := s2
  let t3 := s3
  let r := roundLoop HARAKA_CONSTANTS nRounds ⟨s0, s1, s2, s3⟩
  let f0 := pxor r.s0 t0
  let f1 := pxor r.s1 t1
  let f2 := pxor r.s2 t2
  let f3 := pxor r.s3 t3
  truncstore dst f0 f1 f2 f3

/-- Load a 64-byte buffer into the four-lane state (spec 4.6 step 1). -/
def loadSt (b : List Nat) : St :=
  ⟨readLane b 0, readLane b 16, readLane b 32, readLane b 48⟩

/-- Lanewise XOR of two four-lane states. -/
def xorSt (a b : St) : St :=
  ⟨pxor a.s0 b.s0, pxor a.s1 b.s1, pxor a.s2 b.s2, pxor a.s3 b.s3⟩

/-- Round iteration in the words of spec 4.6 step 4: apply the round
function n times, round i using constant start index 8*i, rounds taken in
increasing order (round m is applied last). -/
def roundRec (n : Nat) (s : St) : St :=
  match n with
  | 0 => s
  | m + 1 => aes_mix4 (roundRec m s) (8 * m)

/-- The keyed permutation written step by step in the words of spec 4.6,
for comparison with the translation of the source: (1) load state and key,
(2) XOR key into state, (3) save the post-key state as the feed-forward
copy, (4) apply the round function n times with start index 8*i, (5) feed
forward against the saved copy, (6) truncate and store into dst. -/
def haraka512_keyed_spec (n : Nat) (dst state key : List Nat) : List Nat :=
  let s := xorSt (loadSt state) (loadSt key)
  let t := s
  let r := roundRec n s
  let f := xorSt r t
  truncstore dst f.s0 f.s1 f.s2 f.s3

/-- The post-key four-lane state of the keyed permutation. -/
def keyedPostKey (state key : List Nat) : St :=
  xorSt (loadSt state) (loadSt key)

/-- The four lanes of the keyed permutation after feed-forward, before the
truncating store. -/
def keyedFinal (n : Nat) (state key : List Nat) : St :=
  xorSt (roundLoop HARAKA_CONSTANTS n (keyedPostKey state key)) (keyedPostKey state key)

/-- The four lanes of the unkeyed permutation after feed-forward. -/
def unkeyedFinal (n : Nat) (src : List Nat) : St :=
  xorSt (roundLoop HARAKA_CONSTANTS n (loadSt src)) (loadSt src)

/-- All four lanes of a state have the 16-byte lane length. -/
def goodSt (s : St) : Prop :=
  s.s0.length = 16 ∧ s.s1.length = 16 ∧ s.s2.length = 16 ∧ s.s3.length = 16

/-! ## Helper lemmas -/

theorem pxor_replicate_zero (l : List Nat) (n : Nat) (h : l.length ≤ n) :
    pxor l (List.replicate n 0) = l := by
  induction l generalizing n with
  | nil => simp [pxor]
  | cons x xs ih =>
    cases n with
    | zero => simp at h
    | succ m =>
      simp only [List.replicate_succ, pxor, List.zipWith_cons_cons, Nat.xor_zero]
      exact congrArg (x :: ·) (ih m (by simpa using h))

theorem pxor_self_eq (l : List Nat) : pxor l l = List.replicate l.length 0 := by
  induction l with
  | nil => rfl
  | cons x xs ih =>
    simp only [pxor, List.zipWith_cons_cons, Nat.xor_self, List.length_cons,
      List.replicate_succ]
    exact congrArg (0 :: ·) ih

theorem length_pxor (a b : List Nat) : (pxor a b).length = min a.length b.length := by
  simp [pxor]

theorem readLane_pxor (a b : List Nat) (off : Nat) :
    readLane (pxor a b) off = pxor (readLane a off) (readLane b off) := by
  simp [readLane, pxor, List.drop_zipWith, List.take_zipWith]

theorem length_readLane_le (b : List Nat) (off : Nat) : (readLane b off).length ≤ 16 := by
  simp [readLane]

theorem length_readLane (b : List Nat) (off : Nat) (h : off + 16 ≤ b.length) :
    (readLane b off).length = 16 := by
  simp only [readLane, List.length_take, List.length_drop]
  omega

theorem length_mixColumns (l : List Nat) : (mixColumns l).length = 16 := by
  simp [mixColumns, mixColumn]

theorem length_tblGet_of (tbl : List (List Nat)) (h : ∀ l ∈ tbl, l.length = 16)
    (i : Nat) : (tblGet tbl i).length = 16 := by
  unfold tblGet
  rcases hlt : tbl[i]? with _ | e
  · simp [List.getD_eq_getElem?_getD, hlt]
  · rw [List.getD_eq_getElem?_getD, hlt]
    exact h e (List.getElem?_mem hlt)

theorem constants_entry_length : ∀ l ∈ HARAKA_CONSTANTS, l.length = 16 := by
  intro l hl
  simp only [HARAKA_CONSTANTS, List.mem_map] at hl
  obtain ⟨i, _, rfl⟩ := hl
  simp

theorem length_tblGet (i : Nat) : (tblGet HARAKA_CONSTANTS i).length = 16 :=
  length_tblGet_of HARAKA_CONSTANTS constants_entry_length i

theorem length_aes_round (s rk : List Nat) (h : rk.length = 16) :
    (aes_round s rk).length = 16 := by
  simp [aes_round, length_pxor, length_mixColumns, h]

theorem length_word32 (l : List Nat) (i : Nat) (h : 4 * i + 4 ≤ l.length) :
    (word32 l i).length = 4 := by
  simp only [word32, List.length_take, List.length_drop]
  omega

theorem goodSt_mix4 (s0 s1 s2 s3 : List Nat) (h0 : s0.length = 16)
    (h1 : s1.length = 16) (h2 : s2.length = 16) (h3 : s3.length = 16) :
    goodSt (mix4 s0 s1 s2 s3) := by
  refine ⟨?_, ?_, ?_, ?_⟩ <;>
    simp [mix4, length_word32, h0, h1, h2, h3]

theorem goodSt_aes_mix4With (tbl : List (List Nat))
    (htbl : ∀ l ∈ tbl, l.length = 16) (s : St) (c : Nat) :
    goodSt (aes_mix4With tbl s c) := by
  unfold aes_mix4With
  exact goodSt_mix4 _ _ _ _
    (length_aes_round _ _ (length_tblGet_of tbl htbl _))
    (length_aes_round _ _ (length_tblGet_of tbl htbl _))
    (length_aes_round _ _ (length_tblGet_of tbl htbl _))
    (length_aes_round _ _ (length_tblGet_of tbl htbl _))

theorem roundLoop_succ (tbl : List (List Nat)) (n : Nat) (s : St) :
    roundLoop tbl (n + 1) s = aes_mix4With tbl (roundLoop tbl n s) (8 * n) := by
  simp [roundLoop, List.range_succ]

theorem goodSt_roundLoop (tbl : List (List Nat))
    (htbl : ∀ l ∈ tbl, l.length = 16) (n : Nat) (s : St) (hs : goodSt s) :
    goodSt (roundLoop tbl n s) := by
  induction n with
  | zero => exact hs
  | succ m _ =>
    rw [roundLoop_succ]
    exact goodSt_aes_mix4With tbl htbl _ _

theorem goodSt_xorSt (a b : St) (ha : goodSt a) (hb : goodSt b) :
    goodSt (xorSt a b) := by
  obtain ⟨ha0, ha1, ha2, ha3⟩ := ha
  obtain ⟨hb0, hb1, hb2, hb3⟩ := hb
  refine ⟨?_, ?_, ?_, ?_⟩ <;>
    simp [xorSt, length_pxor, ha0, ha1, ha2, ha3, hb0, hb1, hb2, hb3]

theorem goodSt_loadSt (b : List Nat) (h : b.length = 64) : goodSt (loadSt b) := by
  refine ⟨?_, ?_, ?_, ?_⟩ <;>
    exact length_readLane b _ (by omega)

theorem goodSt_keyedPostKey (state key : List Nat) (hs : state.length = 64)
    (hk : key.length = 64) : goodSt (keyedPostKey state key) :=
  goodSt_xorSt _ _ (goodSt_loadSt state hs) (goodSt_loadSt key hk)

theorem goodSt_keyedFinal (n : Nat) (state key : List Nat) (hs : state.length = 64)
    (hk : key.length = 64) : goodSt (keyedFinal n state key) :=
  goodSt_xorSt _ _
    (goodSt_roundLoop _ constants_entry_length _ _ (goodSt_keyedPostKey state key hs hk))
    (goodSt_keyedPostKey state key hs hk)

theorem goodSt_unkeyedFinal (n : Nat) (src : List Nat) (hs : src.length = 64) :
    goodSt (unkeyedFinal n src) :=
  goodSt_xorSt _ _
    (goodSt_roundLoop _ constants_entry_length _ _ (goodSt_loadSt src hs))
    (goodSt_loadSt src hs)

theorem length_hi64 (l : List Nat) (h : l.length = 16) : (hi64 l).length = 8 := by
  simp [hi64, h]

theorem length_lo64 (l : List Nat) (h : l.length = 16) : (lo64 l).length = 8 := by
  simp [lo64, h]

theorem writeBytes_append (a r src : List Nat) :
    writeBytes (a ++ r) a.length src = a ++ (src ++ r.drop src.length) := by
  unfold writeBytes
  rw [List.take_left, List.drop_append, List.append_assoc]

theorem truncstore_flat (dst s0 s1 s2 s3 : List Nat) (hdst : dst.length = 32)
    (h0 : s0.length = 16) (h1 : s1.length = 16) (h2 : s2.length = 16)
    (h3 : s3.length = 16) :
    truncstore dst s0 s1 s2 s3 = hi64 s0 ++ (hi64 s1 ++ (lo64 s2 ++ lo64 s3)) := by
  have lh0 : (hi64 s0).length = 8 := length_hi64 s0 h0
  have lh1 : (hi64 s1).length = 8 := length_hi64 s1 h1
  have lh2 : (lo64 s2).length = 8 := length_lo64 s2 h2
  have lh3 : (lo64 s3).length = 8 := length_lo64 s3 h3
  have e1 : writeBytes dst 0 (hi64 s0) = hi64 s0 ++ dst.drop 8 := by
    have := writeBytes_append [] dst (hi64 s0)
    simpa [lh0] using this
  have e2 : writeBytes (hi64 s0 ++ dst.drop 8) 8 (hi64 s1)
      = hi64 s0 ++ (hi64 s1 ++ dst.drop 16) := by
    have := writeBytes_append (hi64 s0) (dst.drop 8) (hi64 s1)
    rw [lh0] at this
    rw [this, lh1, List.drop_drop]
  have e3 : writeBytes (hi64 s0 ++ (hi64 s1 ++ dst.drop 16)) 16 (lo64 s2)
      = hi64 s0 ++ (hi64 s1 ++ (lo64 s2 ++ dst.drop 24)) := by
    have := writeBytes_append (hi64 s0 ++ hi64 s1) (dst.drop 16) (lo64 s2)
    rw [List.length_append, lh0, lh1] at this
    rw [← List.append_assoc, this, lh2, List.drop_drop, List.append_assoc]
  have e4 : writeBytes (hi64 s0 ++ (hi64 s1 ++ (lo64 s2 ++ dst.drop 24))) 24 (lo64 s3)
      = hi64 s0 ++ (hi64 s1 ++ (lo64 s2 ++ (lo64 s3 ++ dst.drop 32))) := by
    have := writeBytes_append (hi64 s0 ++ hi64 s1 ++ lo64 s2) (dst.drop 24) (lo64 s3)
    rw [List.length_append, List.length_append, lh0, lh1, lh2] at this
    rw [← List.append_assoc, ← List.append_assoc, this, lh3, List.drop_drop]
    simp [List.append_assoc]
  have edrop : dst.drop 32 = [] := List.drop_eq_nil_of_le (by omega)
  unfold truncstore
  rw [e1, e2, e3, e4, edrop]
  simp

theorem keyed_unfold (n : Nat) (dst state key : List Nat) :
    haraka512_keyed n dst state key
      = truncstore dst (keyedFinal n state key).s0 (keyedFinal n state key).s1
          (keyedFinal n state key).s2 (keyedFinal n state key).s3 := rfl

theorem unkeyed_unfold (n : Nat) (dst src : List Nat) :
    haraka512 n dst src
      = truncstore dst (unkeyedFinal n src).s0 (unkeyedFinal n src).s1
          (unkeyedFinal n src).s2 (unkeyedFinal n src).s3 := rfl

theorem keyed_flat (n : Nat) (dst state key : List Nat) (hs : state.length = 64)
    (hk : key.length = 64) (hdst : dst.length = 32) :
    haraka512_keyed n dst state key
      = hi64 (keyedFinal n state key).s0 ++ (hi64 (keyedFinal n state key).s1
          ++ (lo64 (keyedFinal n state key).s2 ++ lo64 (keyedFinal n state key).s3)) := by
  obtain ⟨g0, g1, g2, g3⟩ := goodSt_keyedFinal n state key hs hk
  rw [keyed_unfold]
  exact truncstore_flat dst _ _ _ _ hdst g0 g1 g2 g3

theorem unkeyed_flat (n : Nat) (dst src : List Nat) (hs : src.length = 64)
    (hdst : dst.length = 32) :
    haraka512 n dst src
      = hi64 (unkeyedFinal n src).s0 ++ (hi64 (unkeyedFinal n src).s1
          ++ (lo64 (unkeyedFinal n src).s2 ++ lo64 (unkeyedFinal n src).s3)) := by
  obtain ⟨g0, g1, g2, g3⟩ := goodSt_unkeyedFinal n src hs
  rw [unkeyed_unfold]
  exact truncstore_flat dst _ _ _ _ hdst g0 g1 g2 g3

theorem roundLoop_eq_roundRec (n : Nat) (s : St) :
    roundLoop HARAKA_CONSTANTS n s = roundRec n s := by
  induction n with
  | zero => rfl
  | succ m ih => rw [roundLoop_succ, ih]; rfl

theorem roundLoopTrace_eq (tbl : List (List Nat)) (n : Nat) (s : St) :
    roundLoopTrace tbl n s = (roundLoop tbl n s, (List.range n).map (fun i => 8 * i)) := by
  induction n with
  | zero => rfl
  | succ m ih =>
    have h1 : roundLoopTrace tbl (m + 1) s
        = (aes_mix4With tbl (roundLoopTrace tbl m s).1 (8 * m),
           (roundLoopTrace tbl m s).2 ++ [8 * m]) := by
      simp [roundLoopTrace, List.range_succ]
    rw [h1, ih, roundLoop_succ]
    simp [List.range_succ]

/-! ## Claim theorems -/

/-- Claim C1: for every 64-byte state and every round count n with n ≤ 5,
the keyed permutation with the all-zero 64-byte key writes to dst exactly
the same 32 bytes as the unkeyed permutation on the same state. -/
theorem zero_key_equivalence (n : Nat) (dst state : List Nat) (hn : n ≤ 5) :
    haraka512_keyed n dst state (List.replicate 64 0) = haraka512 n dst state := by
  have hk : keyedPostKey state (List.replicate 64 0) = loadSt state := by
    unfold keyedPostKey xorSt loadSt
    have r0 : readLane (List.replicate 64 0) 0 = List.replicate 16 0 := by decide
    have r16 : readLane (List.replicate 64 0) 16 = List.replicate 16 0 := by decide
    have r32 : readLane (List.replicate 64 0) 32 = List.replicate 16 0 := by decide
    have r48 : readLane (List.replicate 64 0) 48 = List.replicate 16 0 := by decide
    rw [r0, r16, r32, r48]
    simp only [St.mk.injEq]
    exact ⟨pxor_replicate_zero _ 16 (length_readLane_le state 0),
      pxor_replicate_zero _ 16 (length_readLane_le state 16),
      pxor_replicate_zero _ 16 (length_readLane_le state 32),
      pxor_replicate_zero _ 16 (length_readLane_le state 48)⟩
  have hfin : keyedFinal n state (List.replicate 64 0) = unkeyedFinal n state := by
    unfold keyedFinal unkeyedFinal
    rw [hk]
  rw [keyed_unfold, unkeyed_unfold, hfin]

/-- Witness for C1 at the concrete round count 5. -/
theorem zero_key_equivalence_witness :
    haraka512_keyed 5 (List.replicate 32 0) (List.replicate 64 1) (List.replicate 64 0)
      = haraka512 5 (List.replicate 32 0) (List.replicate 64 1) :=
  zero_key_equivalence 5 (List.replicate 32 0) (List.replicate 64 1) (by decide)

/-- Claim C2: the keyed permutation follows exactly the step order of the
specification: load state and key into four lanes each, XOR the key lanes
into the state lanes, save the post-key state (not the raw input) as the
feed-forward copy, apply the round function n times with start index 8*i,
feed the saved copy forward by XOR, and truncate and store into dst. -/
theorem keyed_step_order :
    ∀ (n : Nat) (dst state key : List Nat),
      haraka512_keyed n dst state key = haraka512_keyed_spec n dst state key := by
  intro n dst state key
  rw [keyed_unfold]
  simp only [haraka512_keyed_spec, keyedFinal, keyedPostKey, ← roundLoop_eq_roundRec]

/-- Claim C4: the round-count precondition of the keyed permutation is the
debug assertion condition n ≤ 5; it holds for every n ≤ 5 (the assertion
never fires there) and fails for every n > 5. -/
theorem keyed_rounds_assert_spec :
    ∀ n : Nat, (n ≤ 5 → keyedRoundsAssert n = true) ∧ (5 < n → keyedRoundsAssert n = false) := by
  intro n
  constructor <;> intro h <;> simp [keyedRoundsAssert] <;> omega

/-- Witness for C4 at the boundary round counts 5 and 6. -/
theorem keyed_rounds_assert_witness :
    keyedRoundsAssert 5 = true ∧ keyedRoundsAssert 6 = false :=
  ⟨(keyed_rounds_assert_spec 5).1 (by decide), (keyed_rounds_assert_spec 6).2 (by decide)⟩

/-- Claim C5: the constant table has 48 entries and, for every round count
n ≤ 5, every constant-table index the keyed permutation reads is strictly
below the table length, so no access reads past the defined table. -/
theorem const_table_in_bounds :
    HARAKA_CONSTANTS.length = 48 ∧
      ∀ n : Nat, n ≤ 5 → ∀ x ∈ keyedConstIndices n, x < HARAKA_CONSTANTS.length := by
  have hlen : HARAKA_CONSTANTS.length = 48 := by simp [HARAKA_CONSTANTS]
  refine ⟨hlen, ?_⟩
  intro n hn x hx
  rw [hlen]
  simp only [keyedConstIndices, aes_mix4_indices, List.mem_flatten, List.mem_map] at hx
  obtain ⟨l, ⟨i, hi, rfl⟩, hxl⟩ := hx
  simp only [List.mem_range] at hi
  simp only [List.mem_cons, List.not_mem_nil, or_false] at hxl
  omega

/-- Witness for C5: the last index of the 5-round schedule is in bounds. -/
theorem const_table_in_bounds_witness : 39 < HARAKA_CONSTANTS.length :=
  const_table_in_bounds.2 5 (by decide) 39 (by decide)

/-- Claim C3: the round loop of the keyed permutation invokes the round
function exactly n times, in increasing round order with constant start
index 8*i for round i (first two conjuncts: the instrumented loop records
exactly that call sequence and computes the same state); each call reads
only the 8 indices starting at its start index (third conjunct: the round
function result depends on the table only through those indices); distinct
rounds consume disjoint index ranges (fourth conjunct); and distinct round
counts consume distinct index sequences (fifth conjunct). -/
theorem keyed_round_schedule :
    (∀ (tbl : List (List Nat)) (n : Nat) (s : St),
        (roundLoopTrace tbl n s).2 = (List.range n).map (fun i => 8 * i)) ∧
    (∀ (tbl : List (List Nat)) (n : Nat) (s : St),
        (roundLoopTrace tbl n s).1 = roundLoop tbl n s) ∧
    (∀ (tbl tblB : List (List Nat)) (s : St) (c : Nat),
        (∀ k ∈ aes_mix4_indices c, tblGet tbl k = tblGet tblB k) →
        aes_mix4With tbl s c = aes_mix4With tblB s c) ∧
    (∀ i j x : Nat, i ≠ j →
        x ∈ aes_mix4_indices (8 * i) → x ∉ aes_mix4_indices (8 * j)) ∧
    (∀ (tbl : List (List Nat)) (s : St) (n nB : Nat), n ≠ nB →
        (roundLoopTrace tbl n s).2 ≠ (roundLoopTrace tbl nB s).2) := by
  refine ⟨?_, ?_, ?_, ?_, ?_⟩
  · intro tbl n s; rw [roundLoopTrace_eq]
  · intro tbl n s; rw [roundLoopTrace_eq]
  · intro tbl tblB s c h
    simp only [aes_mix4With]
    rw [h c (by simp [aes_mix4_indices]), h (c + 1) (by simp [aes_mix4_indices]),
      h (c + 2) (by simp [aes_mix4_indices]), h (c + 3) (by simp [aes_mix4_indices]),
      h (c + 4) (by simp [aes_mix4_indices]), h (c + 5) (by simp [aes_mix4_indices]),
      h (c + 6) (by simp [aes_mix4_indices]), h (c + 7) (by simp [aes_mix4_indices])]
  · intro i j x hij hx hy
    simp only [aes_mix4_indices, List.mem_cons, List.not_mem_nil, or_false] at hx hy
    omega
  · intro tbl s n nB hne heq
    rw [roundLoopTrace_eq, roundLoopTrace_eq] at heq
    simp only at heq
    have hlen := congrArg List.length heq
    simp only [List.length_map, List.length_range] at hlen
    exact hne hlen

/-- Witness for C3: the 2-round schedule is the call sequence 0, 8, and the
indices of round 0 avoid the range of round 1. -/
theorem keyed_round_schedule_witness :
    (roundLoopTrace HARAKA_CONSTANTS 2 ⟨[], [], [], []⟩).2 = [0, 8] ∧
      (0 : Nat) ∉ aes_mix4_indices (8 * 1) :=
  ⟨(keyed_round_schedule.1 HARAKA_CONSTANTS 2 ⟨[], [], [], []⟩).trans (by decide),
   keyed_round_schedule.2.2.2.1 0 1 0 (by decide) (by decide)⟩

/-- Claim C6: the keyed and unkeyed permutations are pure functions of
(state, key, round count): the 32 bytes written do not depend on anything
else, in particular not on the prior contents of the destination buffer. -/
theorem keyed_pure_deterministic :
    ∀ (n : Nat) (dst dstB state key : List Nat),
      state.length = 64 → key.length = 64 → dst.length = 32 → dstB.length = 32 →
      haraka512_keyed n dst state key = haraka512_keyed n dstB state key ∧
      haraka512 n dst state = haraka512 n dstB state := by
  intro n dst dstB state key hs hk hd hdB
  constructor
  · rw [keyed_flat n dst state key hs hk hd, keyed_flat n dstB state key hs hk hdB]
  · rw [unkeyed_flat n dst state hs hd, unkeyed_flat n dstB state hs hdB]

/-- Witness for C6 at concrete buffers with different prior contents. -/
theorem keyed_pure_deterministic_witness :
    haraka512_keyed 0 (List.replicate 32 0) (List.replicate 64 2) (List.replicate 64 3)
        = haraka512_keyed 0 (List.range 32) (List.replicate 64 2) (List.replicate 64 3) ∧
      haraka512 0 (List.replicate 32 0) (List.replicate 64 2)
        = haraka512 0 (List.range 32) (List.replicate 64 2) :=
  keyed_pure_deterministic 0 (List.replicate 32 0) (List.range 32)
    (List.replicate 64 2) (List.replicate 64 3) (by decide) (by decide) (by decide)
    (by decide)

/-- Claim C7: the keyed permutation writes all 32 bytes of the destination
buffer (no partial output), and the value written is fully determined by
(state, key, round count) alone: any destination buffer receives the same
32 bytes as the canonical all-zero one. -/
theorem keyed_frame :
    ∀ (n : Nat) (dst state key : List Nat),
      state.length = 64 → key.length = 64 → dst.length = 32 →
      (haraka512_keyed n dst state key).length = 32 ∧
      haraka512_keyed n dst state key
        = haraka512_keyed n (List.replicate 32 0) state key := by
  intro n dst state key hs hk hd
  obtain ⟨g0, g1, g2, g3⟩ := goodSt_keyedFinal n state key hs hk
  constructor
  · rw [keyed_flat n dst state key hs hk hd]
    simp [length_hi64 _ g0, length_hi64 _ g1, length_lo64 _ g2, length_lo64 _ g3]
  · rw [keyed_flat n dst state key hs hk hd,
      keyed_flat n (List.replicate 32 0) state key hs hk (by simp)]

/-- Witness for C7 at a concrete destination buffer. -/
theorem keyed_frame_witness :
    (haraka512_keyed 0 (List.range 32) (List.replicate 64 4) (List.replicate 64 5)).length = 32 ∧
      haraka512_keyed 0 (List.range 32) (List.replicate 64 4) (List.replicate 64 5)
        = haraka512_keyed 0 (List.replicate 32 0) (List.replicate 64 4) (List.replicate 64 5) :=
  keyed_frame 0 (List.range 32) (List.replicate 64 4) (List.replicate 64 5)
    (by decide) (by decide) (by decide)

/-- Claim C8: the truncating store writes the fixed canonical 32-byte
subset of the four-lane state - the high 8 bytes of lanes 0 and 1 followed
by the low 8 bytes of lanes 2 and 3, in that fixed byte order - and this
selection is not the 32-byte prefix of the state, as the second conjunct
shows at a concrete four-lane input. -/
theorem truncstore_map :
    (∀ dst s0 s1 s2 s3 : List Nat,
        dst.length = 32 → s0.length = 16 → s1.length = 16 → s2.length = 16 →
        s3.length = 16 →
        truncstore dst s0 s1 s2 s3 = hi64 s0 ++ (hi64 s1 ++ (lo64 s2 ++ lo64 s3))) ∧
      truncstore (List.replicate 32 0) (List.range 16)
          ((List.range 16).map (fun j => j + 16)) ((List.range 16).map (fun j => j + 32))
          ((List.range 16).map (fun j => j + 48))
        ≠ (List.range 16 ++ (List.range 16).map (fun j => j + 16)
            ++ (List.range 16).map (fun j => j + 32)
            ++ (List.range 16).map (fun j => j + 48)).take 32 := by
  refine ⟨fun dst s0 s1 s2 s3 hd h0 h1 h2 h3 =>
    truncstore_flat dst s0 s1 s2 s3 hd h0 h1 h2 h3, ?_⟩
  decide

/-- Witness for C8 at concrete lanes. -/
theorem truncstore_map_witness :
    truncstore (List.replicate 32 7) (List.replicate 16 1) (List.replicate 16 2)
        (List.replicate 16 3) (List.replicate 16 4)
      = hi64 (List.replicate 16 1) ++ (hi64 (List.replicate 16 2)
          ++ (lo64 (List.replicate 16 3) ++ lo64 (List.replicate 16 4))) :=
  truncstore_map.1 (List.replicate 32 7) (List.replicate 16 1) (List.replicate 16 2)
    (List.replicate 16 3) (List.replicate 16 4) (by decide) (by decide) (by decide)
    (by decide) (by decide)

/-- Claim C9: for every round count n ≤ 5, the keyed permutation on
(state, key) writes the same 32 bytes as the unkeyed permutation applied to
the bytewise XOR of state and key: after the key XOR the saved feed-forward
copy equals the working state exactly as in the unkeyed variant. -/
theorem keyed_as_unkeyed_on_xor :
    ∀ (n : Nat) (dst state key : List Nat), n ≤ 5 →
      haraka512_keyed n dst state key = haraka512 n dst (pxor state key) := by
  intro n dst state key hn
  have hk : keyedPostKey state key = loadSt (pxor state key) := by
    unfold keyedPostKey xorSt loadSt
    simp only [St.mk.injEq]
    exact ⟨(readLane_pxor state key 0).symm, (readLane_pxor state key 16).symm,
      (readLane_pxor state key 32).symm, (readLane_pxor state key 48).symm⟩
  have hfin : keyedFinal n state key = unkeyedFinal n (pxor state key) := by
    unfold keyedFinal unkeyedFinal
    rw [hk]
  rw [keyed_unfold, unkeyed_unfold, hfin]

/-- Witness for C9 at the concrete round count 5. -/
theorem keyed_as_unkeyed_on_xor_witness :
    haraka512_keyed 5 (List.replicate 32 0) (List.replicate 64 6) (List.replicate 64 9)
      = haraka512 5 (List.replicate 32 0)
          (pxor (List.replicate 64 6) (List.replicate 64 9)) :=
  keyed_as_unkeyed_on_xor 5 (List.replicate 32 0) (List.replicate 64 6)
    (List.replicate 64 9) (by decide)

/-- Claim C10: with round count 0 the keyed permutation writes one fixed
32-byte value - the truncating store of the all-zero four-lane state, i.e.
32 zero bytes - independent of the contents of state and key, because the
feed-forward XOR cancels the untouched post-key state against its copy. -/
theorem keyed_zero_rounds :
    ∀ dst state key : List Nat,
      state.length = 64 → key.length = 64 → dst.length = 32 →
      haraka512_keyed 0 dst state key = List.replicate 32 0 := by
  intro dst state key hs hk hd
  obtain ⟨p0, p1, p2, p3⟩ := goodSt_keyedPostKey state key hs hk
  rw [keyed_flat 0 dst state key hs hk hd]
  have hfin : keyedFinal 0 state key
      = ⟨List.replicate 16 0, List.replicate 16 0, List.replicate 16 0,
         List.replicate 16 0⟩ := by
    unfold keyedFinal
    have hid : roundLoop HARAKA_CONSTANTS 0 (keyedPostKey state key)
        = keyedPostKey state key := rfl
    rw [hid]
    unfold xorSt
    simp only [St.mk.injEq]
    refine ⟨?_, ?_, ?_, ?_⟩ <;> rw [pxor_self_eq] <;> simp [p0, p1, p2, p3]
  rw [hfin]
  decide

/-- Witness for C10 at concrete state, key and destination contents. -/
theorem keyed_zero_rounds_witness :
    haraka512_keyed 0 (List.replicate 32 9) (List.range 64) (List.replicate 64 5)
      = List.replicate 32 0 :=
  keyed_zero_rounds (List.replicate 32 9) (List.range 64) (List.replicate 64 5)
    (by decide) (by decide) (by decide)

end Haraka
